import Mathlib

/-!
Verification development for the s3-vector-ingestor repository.

The definitions below are a shallow embedding of the Python sources:
 - `backend/services/document_processor.py` (text chunking, PDF OCR tier
   selection, Titan embedding retry loop, vector-sidecar generation);
 - `backend/services/queue_service.py` (the job-queue engine backed by a
   DynamoDB job table and SQS broker).

Texts are embedded as `List Char` (the character sequence of a Python `str`).
Python `str.split()` (whitespace tokenisation), `str.split('\n\n')`,
`str.strip()`, `' '.join(...)` and the sentence-splitting regex
`(?<=[.!?])\s+` are each given a direct executable model.  External
collaborators (S3, Textract, Bedrock, SQS delivery, wall-clock time, uuid
generation) are modelled as explicit parameters/oracles; everything the
claims quantify over is computed by the embedded code itself.
-/

namespace S3VI

/-- One step of Python `str.split()`: accumulate the current word (reversed in
`acc`), flush it at whitespace.  Tokens are emitted left to right, empty
tokens are never produced. -/
def pyWordsAux : List Char → List Char → List (List Char)
  | [], acc => if acc.isEmpty then [] else [acc.reverse]
  | c :: rest, acc =>
    if c.isWhitespace then
      if acc.isEmpty then pyWordsAux rest [] else acc.reverse :: pyWordsAux rest []
    else pyWordsAux rest (c :: acc)

/-- Python `text.split()`: the whitespace-separated words of a text. -/
def pyWords (l : List Char) : List (List Char) := pyWordsAux l []

/-- `len(text.split())`: the word count of a text. -/
def wcL (l : List Char) : Nat := (pyWords l).length

/-- Python `str.strip()`: drop leading and trailing whitespace. -/
def pyStrip (l : List Char) : List Char :=
  ((l.dropWhile Char.isWhitespace).reverse.dropWhile Char.isWhitespace).reverse

/-- Python `' '.join(tokens)`. -/
def joinSp : List (List Char) → List Char
  | [] => []
  | [t] => t
  | t :: ts => t ++ ' ' :: joinSp ts

/-- Python `l[-n:]` for `n > 0` (and `l[-n:]` on a shorter list is the whole
list), used for `current_chunk.split()[-overlap:]`. -/
def takeLast (n : Nat) (l : List α) : List α := l.drop (l.length - n)

/-- Python `text.split('\n\n')`: split on the exact two-character separator,
left to right, keeping empty pieces (they are filtered later). -/
def splitParasRaw : List Char → List (List Char)
  | [] => [[]]
  | '\n' :: '\n' :: rest => [] :: splitParasRaw rest
  | c :: rest =>
    match splitParasRaw rest with
    | [] => [[c]]
    | h :: t => (c :: h) :: t

/-- `[p.strip() for p in text.split('\n\n') if p.strip()]` from
`_chunk_text_intelligently`. -/
def splitParas (text : List Char) : List (List Char) :=
  ((splitParasRaw text).map pyStrip).filter (fun p => !p.isEmpty)

/-- Terminal sentence punctuation of the regex `(?<=[.!?])\s+`. -/
def isSentEnd (c : Char) : Bool := c == '.' || c == '!' || c == '?'

/-- Whether a list starts with a whitespace character. -/
def headIsWs : List Char → Bool
  | [] => false
  | c :: _ => c.isWhitespace

/-- `re.split(r'(?<=[.!?])\s+', text)`: a split point is a maximal whitespace
run immediately preceded by `.`, `!` or `?`.  The flag records that we are
inside the whitespace run of a match (so further whitespace is consumed by
the same `\s+`). -/
def splitSentGo : Bool → List Char → List (List Char)
  | _, [] => [[]]
  | skip, c :: rest =>
    if skip && c.isWhitespace then splitSentGo true rest
    else if isSentEnd c && headIsWs rest then [c] :: splitSentGo true rest
    else
      match splitSentGo false rest with
      | [] => [[c]]
      | h :: t => (c :: h) :: t

/-- `_split_into_sentences`: regex split, then
`[s.strip() for s in sentences if s.strip()]`. -/
def split_into_sentences (p : List Char) : List (List Char) :=
  ((splitSentGo false p).map pyStrip).filter (fun s => !s.isEmpty)

/-- The mutable loop state of `_chunk_text_intelligently`:
`chunks`, `current_chunk`, `current_size`. -/
structure ChunkState where
  chunks : List (List Char)
  cur : List Char
  size : Nat
deriving DecidableEq, Repr

/-- The body of `for sentence in sentences` in `_chunk_text_intelligently`
(the branch for a paragraph that alone exceeds `chunk_size`):
if `current_size + sentence_size > chunk_size and current_chunk`, the current
chunk is closed (stripped) and the new one is seeded with
`current_chunk.split()[-overlap:]` (empty seed when `overlap == 0`) followed
by the sentence words; otherwise the sentence is appended. -/
def sentStep (cs ov : Nat) (st : ChunkState) (s : List Char) : ChunkState :=
  let sw := pyWords s
  if cs < st.size + sw.length ∧ st.cur ≠ [] then
    let ow := if 0 < ov then takeLast ov (pyWords st.cur) else []
    { chunks := st.chunks ++ [pyStrip st.cur]
      cur := joinSp (ow ++ sw)
      size := ow.length + sw.length }
  else
    { st with
      cur := if st.cur.isEmpty then s else st.cur ++ ' ' :: s
      size := st.size + sw.length }

/-- The body of `for paragraph in paragraphs` in `_chunk_text_intelligently`:
an oversized paragraph is split by sentences, a fitting paragraph is appended
(joined with a blank line), and otherwise the current chunk is closed and the
paragraph starts the next chunk on its own. -/
def paraStep (cs ov : Nat) (st : ChunkState) (p : List Char) : ChunkState :=
  let pw := pyWords p
  if cs < pw.length then (split_into_sentences p).foldl (sentStep cs ov) st
  else if st.size + pw.length ≤ cs then
    { st with
      cur := if st.cur.isEmpty then p else st.cur ++ '\n' :: '\n' :: p
      size := st.size + pw.length }
  else
    { chunks := st.chunks ++ (if st.cur.isEmpty then [] else [pyStrip st.cur])
      cur := p
      size := pw.length }

/-- `DocumentProcessor._chunk_text_intelligently(text, chunk_size, overlap)`:
paragraph-first accumulation, sentence-level splitting of oversized
paragraphs with overlap seeding, final flush, and the
`len(chunk.split()) >= 10` noise filter.  (The Python `except` fallback to
`_chunk_text` is unreachable for this pure body and is not modelled.) -/
def chunk_text_intelligently (text : List Char) (cs ov : Nat) : List (List Char) :=
  let fin := (splitParas text).foldl (paraStep cs ov) ⟨[], [], 0⟩
  let flushed := if (pyStrip fin.cur).isEmpty then fin.chunks else fin.chunks ++ [pyStrip fin.cur]
  flushed.filter (fun c => 10 ≤ (pyWords c).length)

/-! ### Word-count lemmas for the tokenizer layer -/

theorem ne_nil_of_isEmpty_eq_false {α : Type _} {l : List α} (h : l.isEmpty = false) :
    l ≠ [] := by
  intro hn
  subst hn
  simp at h

theorem reverse_ne_nil_of_isEmpty_eq_false {α : Type _} {l : List α} (h : l.isEmpty = false) :
    l.reverse ≠ [] := fun hn =>
  ne_nil_of_isEmpty_eq_false h (List.reverse_eq_nil_iff.mp hn)

theorem pyWordsAux_append_ws (w : Char) (hw : w.isWhitespace = true) (b : List Char) :
    ∀ (a acc : List Char), pyWordsAux (a ++ w :: b) acc = pyWordsAux a acc ++ pyWordsAux b [] := by
  intro a
  induction a with
  | nil =>
    intro acc
    by_cases h : acc.isEmpty <;> simp [pyWordsAux, hw, h]
  | cons c a ih =>
    intro acc
    by_cases hc : c.isWhitespace
    · by_cases h : acc.isEmpty <;> simp [pyWordsAux, hc, h, ih]
    · simp [pyWordsAux, hc, ih]

theorem pyWords_append_ws (w : Char) (hw : w.isWhitespace = true) (a b : List Char) :
    pyWords (a ++ w :: b) = pyWords a ++ pyWords b :=
  pyWordsAux_append_ws w hw b a []

theorem pyWordsAux_tokens :
    ∀ (l acc : List Char), (∀ c ∈ acc, c.isWhitespace = false) →
      ∀ t ∈ pyWordsAux l acc, t ≠ [] ∧ ∀ c ∈ t, c.isWhitespace = false := by
  intro l
  induction l with
  | nil =>
    intro acc hacc t ht
    cases h : acc.isEmpty with
    | true => simp [pyWordsAux, h] at ht
    | false =>
      simp only [pyWordsAux, h, Bool.false_eq_true, if_false, List.mem_singleton] at ht
      subst ht
      refine ⟨reverse_ne_nil_of_isEmpty_eq_false h, ?_⟩
      intro c hc
      exact hacc c (List.mem_reverse.mp hc)
  | cons c rest ih =>
    intro acc hacc t ht
    cases hc : c.isWhitespace with
    | true =>
      cases h : acc.isEmpty with
      | true =>
        simp only [pyWordsAux, hc, if_true, h] at ht
        exact ih [] (by simp) t ht
      | false =>
        simp only [pyWordsAux, hc, if_true, h, Bool.false_eq_true, if_false,
          List.mem_cons] at ht
        rcases ht with ht | ht
        · subst ht
          refine ⟨reverse_ne_nil_of_isEmpty_eq_false h, ?_⟩
          intro d hd
          exact hacc d (List.mem_reverse.mp hd)
        · exact ih [] (by simp) t ht
    | false =>
      simp only [pyWordsAux, hc, Bool.false_eq_true, if_false] at ht
      refine ih (c :: acc) ?_ t ht
      intro d hd
      rcases List.mem_cons.mp hd with rfl | hd
      · exact hc
      · exact hacc d hd

theorem pyWords_tokens (l : List Char) :
    ∀ t ∈ pyWords l, t ≠ [] ∧ ∀ c ∈ t, c.isWhitespace = false :=
  pyWordsAux_tokens l [] (by simp)

theorem pyWordsAux_all_notWs :
    ∀ (t acc : List Char), (∀ c ∈ t, c.isWhitespace = false) →
      pyWordsAux t acc = if (acc.reverse ++ t).isEmpty then [] else [acc.reverse ++ t] := by
  intro t
  induction t with
  | nil =>
    intro acc _
    by_cases h : acc.isEmpty
    · have : acc = [] := by simpa [List.isEmpty_iff] using h
      subst this; simp [pyWordsAux]
    · have : acc ≠ [] := by simpa [List.isEmpty_iff] using h
      simp [pyWordsAux, h, List.isEmpty_iff, this]
  | cons c t ih =>
    intro acc h
    have hc : c.isWhitespace = false := h c (by simp)
    have hrest : ∀ d ∈ t, d.isWhitespace = false := fun d hd => h d (by simp [hd])
    simp only [pyWordsAux, hc, if_false]
    rw [ih (c :: acc) hrest]
    simp [List.isEmpty_iff]

theorem pyWords_token (t : List Char) (h : ∀ c ∈ t, c.isWhitespace = false) (hne : t ≠ []) :
    pyWords t = [t] := by
  unfold pyWords
  rw [pyWordsAux_all_notWs t [] h]
  simp [List.isEmpty_iff, hne]

theorem pyWords_allWs : ∀ (s : List Char), (∀ c ∈ s, c.isWhitespace = true) → pyWords s = [] := by
  intro s
  induction s with
  | nil => intro _; rfl
  | cons c rest ih =>
    intro h
    have hc : c.isWhitespace = true := h c (by simp)
    show pyWordsAux (c :: rest) [] = []
    simp only [pyWordsAux, hc, if_true, List.isEmpty_nil]
    exact ih fun d hd => h d (by simp [hd])

theorem pyWords_append_allWs (x s : List Char) (h : ∀ c ∈ s, c.isWhitespace = true) :
    pyWords (x ++ s) = pyWords x := by
  cases s with
  | nil => simp
  | cons w s' =>
    rw [pyWords_append_ws w (h w (by simp)) x s',
      pyWords_allWs s' (fun d hd => h d (by simp [hd]))]
    simp

theorem pyWords_dropWhile_ws (l : List Char) :
    pyWords (l.dropWhile Char.isWhitespace) = pyWords l := by
  induction l with
  | nil => rfl
  | cons c rest ih =>
    by_cases hc : c.isWhitespace
    · rw [List.dropWhile_cons_of_pos (by simpa using hc), ih]
      show pyWordsAux rest [] = pyWordsAux (c :: rest) []
      simp [pyWordsAux, hc]
    · rw [List.dropWhile_cons_of_neg (by simpa using hc)]

theorem mem_takeWhile_ws :
    ∀ (l : List Char), ∀ c ∈ l.takeWhile Char.isWhitespace, c.isWhitespace = true := by
  intro l
  induction l with
  | nil => simp
  | cons c rest ih =>
    intro d hd
    by_cases hc : c.isWhitespace
    · rw [List.takeWhile_cons_of_pos (by simpa using hc)] at hd
      rcases List.mem_cons.mp hd with rfl | hd
      · exact hc
      · exact ih d hd
    · rw [List.takeWhile_cons_of_neg (by simpa using hc)] at hd
      simp at hd

theorem pyWords_strip (l : List Char) : pyWords (pyStrip l) = pyWords l := by
  set m := l.dropWhile Char.isWhitespace with hm
  have hml : pyWords m = pyWords l := pyWords_dropWhile_ws l
  have hdecomp : m = (m.reverse.dropWhile Char.isWhitespace).reverse ++
      (m.reverse.takeWhile Char.isWhitespace).reverse := by
    have h1 : m.reverse.takeWhile Char.isWhitespace ++ m.reverse.dropWhile Char.isWhitespace =
        m.reverse := List.takeWhile_append_dropWhile Char.isWhitespace m.reverse
    calc m = m.reverse.reverse := (List.reverse_reverse m).symm
      _ = (m.reverse.takeWhile Char.isWhitespace ++
            m.reverse.dropWhile Char.isWhitespace).reverse := by rw [h1]
      _ = (m.reverse.dropWhile Char.isWhitespace).reverse ++
            (m.reverse.takeWhile Char.isWhitespace).reverse := by
          rw [List.reverse_append]
  have : pyWords ((m.reverse.dropWhile Char.isWhitespace).reverse ++
      (m.reverse.takeWhile Char.isWhitespace).reverse) =
      pyWords ((m.reverse.dropWhile Char.isWhitespace).reverse) := by
    refine pyWords_append_allWs _ _ ?_
    intro c hc
    exact mem_takeWhile_ws m.reverse c (List.mem_reverse.mp hc)
  show pyWords ((m.reverse.dropWhile Char.isWhitespace).reverse) = pyWords l
  rw [← this, ← hdecomp, hml]

theorem pyWords_joinSp :
    ∀ ts : List (List Char), (∀ t ∈ ts, t ≠ [] ∧ ∀ c ∈ t, c.isWhitespace = false) →
      pyWords (joinSp ts) = ts := by
  intro ts
  induction ts with
  | nil => intro _; rfl
  | cons t ts ih =>
    intro h
    cases ts with
    | nil =>
      have := h t (by simp)
      simpa [joinSp] using pyWords_token t this.2 this.1
    | cons t' ts' =>
      show pyWords (t ++ ' ' :: joinSp (t' :: ts')) = t :: t' :: ts'
      rw [pyWords_append_ws ' ' (by decide) t (joinSp (t' :: ts'))]
      have ht := h t (by simp)
      rw [pyWords_token t ht.2 ht.1, ih (fun u hu => h u (by simp [hu]))]
      rfl

theorem wcL_append_ws (w : Char) (hw : w.isWhitespace = true) (a b : List Char) :
    wcL (a ++ w :: b) = wcL a + wcL b := by
  unfold wcL
  rw [pyWords_append_ws w hw a b, List.length_append]

theorem wcL_strip (l : List Char) : wcL (pyStrip l) = wcL l := by
  unfold wcL
  rw [pyWords_strip]

theorem wcL_nil : wcL [] = 0 := rfl

theorem wcL_ws_cons (w : Char) (hw : w.isWhitespace = true) (p : List Char) :
    wcL (w :: p) = wcL p := by
  show (pyWordsAux (w :: p) []).length = (pyWordsAux p []).length
  simp [pyWordsAux, hw]

theorem takeLast_length_le {α : Type _} (n : Nat) (l : List α) : (takeLast n l).length ≤ n := by
  unfold takeLast
  rw [List.length_drop]
  omega

theorem mem_of_mem_takeLast {α : Type _} {n : Nat} {l : List α} {x : α}
    (hx : x ∈ takeLast n l) : x ∈ l :=
  List.drop_subset _ _ hx

theorem wcL_joinSp_tokens (ts : List (List Char))
    (h : ∀ t ∈ ts, t ≠ [] ∧ ∀ c ∈ t, c.isWhitespace = false) :
    wcL (joinSp ts) = ts.length := by
  unfold wcL
  rw [pyWords_joinSp ts h]

/-! ### The chunk-size invariant of `_chunk_text_intelligently` -/

/-- Loop invariant for `_chunk_text_intelligently`: every emitted chunk has at
most `chunk_size + overlap` words, `current_size` is exactly the word count
of `current_chunk`, and `current_size` itself respects the same bound. -/
def chunkInv (cs ov : Nat) (st : ChunkState) : Prop :=
  (∀ c ∈ st.chunks, wcL c ≤ cs + ov) ∧ wcL st.cur = st.size ∧ st.size ≤ cs + ov

theorem sentStep_inv (cs ov : Nat) (st : ChunkState) (s : List Char)
    (hs : wcL s ≤ cs) (hinv : chunkInv cs ov st) :
    chunkInv cs ov (sentStep cs ov st s) := by
  obtain ⟨hchunks, hcur, hsize⟩ := hinv
  by_cases hcond : cs < st.size + (pyWords s).length ∧ st.cur ≠ []
  · have hstep : sentStep cs ov st s =
        { chunks := st.chunks ++ [pyStrip st.cur]
          cur := joinSp ((if 0 < ov then takeLast ov (pyWords st.cur) else []) ++ pyWords s)
          size := (if 0 < ov then takeLast ov (pyWords st.cur) else []).length +
            (pyWords s).length } := by
      simp only [sentStep, if_pos hcond]
    set ow := if 0 < ov then takeLast ov (pyWords st.cur) else [] with how
    have howlen : ow.length ≤ ov := by
      rw [how]
      by_cases h0 : 0 < ov
      · simpa [h0] using takeLast_length_le ov (pyWords st.cur)
      · simp [h0]
    have htokens : ∀ t ∈ ow ++ pyWords s, t ≠ [] ∧ ∀ c ∈ t, c.isWhitespace = false := by
      intro t ht
      rcases List.mem_append.mp ht with ht | ht
      · rw [how] at ht
        by_cases h0 : 0 < ov
        · rw [if_pos h0] at ht
          exact pyWords_tokens st.cur t (mem_of_mem_takeLast ht)
        · rw [if_neg h0] at ht
          simp at ht
      · exact pyWords_tokens s t ht
    refine ⟨?_, ?_, ?_⟩ <;> rw [hstep]
    · intro c hc
      rcases List.mem_append.mp hc with hc | hc
      · exact hchunks c hc
      · rw [List.mem_singleton.mp hc, wcL_strip, hcur]
        exact hsize
    · show wcL (joinSp (ow ++ pyWords s)) = ow.length + (pyWords s).length
      rw [wcL_joinSp_tokens _ htokens, List.length_append]
    · show ow.length + (pyWords s).length ≤ cs + ov
      have : (pyWords s).length ≤ cs := hs
      omega
  · have hstep : sentStep cs ov st s =
        { st with
          cur := if st.cur.isEmpty then s else st.cur ++ ' ' :: s
          size := st.size + (pyWords s).length } := by
      simp only [sentStep, if_neg hcond]
    have hor : st.size + (pyWords s).length ≤ cs ∨ st.cur = [] := by
      by_cases h1 : st.cur = []
      · exact Or.inr h1
      · left
        by_contra h2
        exact hcond ⟨by omega, h1⟩
    refine ⟨?_, ?_, ?_⟩ <;> rw [hstep]
    · exact hchunks
    · show wcL (if st.cur.isEmpty then s else st.cur ++ ' ' :: s) = st.size + (pyWords s).length
      cases hemp : st.cur.isEmpty with
      | true =>
        have hnil : st.cur = [] := by simpa [List.isEmpty_iff] using hemp
        rw [if_pos rfl]
        rw [hnil] at hcur
        simp only [wcL_nil] at hcur
        show wcL s = st.size + (pyWords s).length
        have hws : (pyWords s).length = wcL s := rfl
        omega
      | false =>
        rw [if_neg (by simp)]
        rw [wcL_append_ws ' ' (by decide) st.cur s, hcur]
        rfl
    · show st.size + (pyWords s).length ≤ cs + ov
      rcases hor with h | h
      · omega
      · rw [h] at hcur
        simp only [wcL_nil] at hcur
        have : (pyWords s).length = wcL s := rfl
        omega

theorem foldl_sentStep_inv (cs ov : Nat) :
    ∀ (ss : List (List Char)) (st : ChunkState),
      (∀ s ∈ ss, wcL s ≤ cs) → chunkInv cs ov st →
      chunkInv cs ov (ss.foldl (sentStep cs ov) st) := by
  intro ss
  induction ss with
  | nil => intro st _ h; simpa using h
  | cons s ss ih =>
    intro st hs hinv
    simp only [List.foldl_cons]
    exact ih _ (fun u hu => hs u (by simp [hu]))
      (sentStep_inv cs ov st s (hs s (by simp)) hinv)

theorem paraStep_inv (cs ov : Nat) (st : ChunkState) (p : List Char)
    (hp : ∀ s ∈ split_into_sentences p, wcL s ≤ cs) (hinv : chunkInv cs ov st) :
    chunkInv cs ov (paraStep cs ov st p) := by
  obtain ⟨hchunks, hcur, hsize⟩ := hinv
  by_cases h1 : cs < (pyWords p).length
  · have hstep : paraStep cs ov st p = (split_into_sentences p).foldl (sentStep cs ov) st := by
      simp only [paraStep, if_pos h1]
    rw [hstep]
    exact foldl_sentStep_inv cs ov _ st hp ⟨hchunks, hcur, hsize⟩
  · by_cases h2 : st.size + (pyWords p).length ≤ cs
    · have hstep : paraStep cs ov st p =
          { st with
            cur := if st.cur.isEmpty then p else st.cur ++ '\n' :: '\n' :: p
            size := st.size + (pyWords p).length } := by
        simp only [paraStep, if_neg h1, if_pos h2]
      refine ⟨?_, ?_, ?_⟩ <;> rw [hstep]
      · exact hchunks
      · show wcL (if st.cur.isEmpty then p else st.cur ++ '\n' :: '\n' :: p) =
          st.size + (pyWords p).length
        cases hemp : st.cur.isEmpty with
        | true =>
          have hnil : st.cur = [] := by simpa [List.isEmpty_iff] using hemp
          rw [if_pos rfl]
          rw [hnil] at hcur
          simp only [wcL_nil] at hcur
          show wcL p = st.size + (pyWords p).length
          have hwp : (pyWords p).length = wcL p := rfl
          omega
        | false =>
          rw [if_neg (by simp)]
          rw [wcL_append_ws '\n' (by decide) st.cur ('\n' :: p), hcur,
            wcL_ws_cons '\n' (by decide) p]
          rfl
      · show st.size + (pyWords p).length ≤ cs + ov
        omega
    · have hstep : paraStep cs ov st p =
          { chunks := st.chunks ++ (if st.cur.isEmpty then [] else [pyStrip st.cur])
            cur := p
            size := (pyWords p).length } := by
        simp only [paraStep, if_neg h1, if_neg h2]
      refine ⟨?_, ?_, ?_⟩ <;> rw [hstep]
      · intro c hc
        rcases List.mem_append.mp hc with hc | hc
        · exact hchunks c hc
        · cases hemp : st.cur.isEmpty with
          | true => rw [hemp] at hc; simp at hc
          | false =>
            rw [hemp] at hc
            simp only [Bool.false_eq_true, if_false, List.mem_singleton] at hc
            rw [hc, wcL_strip, hcur]
            exact hsize
      · rfl
      · show (pyWords p).length ≤ cs + ov
        omega

theorem foldl_paraStep_inv (cs ov : Nat) :
    ∀ (ps : List (List Char)) (st : ChunkState),
      (∀ p ∈ ps, ∀ s ∈ split_into_sentences p, wcL s ≤ cs) → chunkInv cs ov st →
      chunkInv cs ov (ps.foldl (paraStep cs ov) st) := by
  intro ps
  induction ps with
  | nil => intro st _ h; simpa using h
  | cons p ps ih =>
    intro st hp hinv
    simp only [List.foldl_cons]
    exact ih _ (fun u hu => hp u (by simp [hu]))
      (paraStep_inv cs ov st p (hp p (by simp)) hinv)

/-! ### Concrete texts used by counterexamples and witnesses -/

/-- One paragraph of three 9-word sentences: with `chunk_size = 10` and
`overlap = 3` the sentence loop produces 12-word chunks. -/
def textC3 : List Char :=
  ("a1 a2 a3 a4 a5 a6 a7 a8 a9. b1 b2 b3 b4 b5 b6 b7 b8 b9. " ++
   "c1 c2 c3 c4 c5 c6 c7 c8 c9.").toList

/-- Two 10-word paragraphs: with `chunk_size = 15` the second paragraph closes
the first chunk at a paragraph boundary, without any overlap seeding. -/
def textC4 : List Char :=
  ("p1 p2 p3 p4 p5 p6 p7 p8 p9 p10\n\nq1 q2 q3 q4 q5 q6 q7 q8 q9 q10").toList

/-- A 12-word single-paragraph text, used as a witness input. -/
def textDemo : List Char :=
  ("alpha beta gamma delta epsilon zeta eta theta iota kappa lambda mu").toList

/-! ### Claim C3 -/

/-- Claim C3 (counterexample): it is not the case that every segment returned
by `_chunk_text_intelligently` has at most `target_size` words or is a single
sentence.  On `textC3` with `chunk_size = 10`, `overlap = 3`, both returned
segments have 12 words and each consists of two sentences (a 3-word overlap
seed ending in `.` followed by a 9-word sentence). -/
theorem claim_C3_cex :
    ¬ (∀ c ∈ chunk_text_intelligently textC3 10 3,
        wcL c ≤ 10 ∨ (split_into_sentences c).length = 1) := by
  decide

/-- Claim C3 (amended): every returned segment contains at most
`target_size + overlap` words, provided no single sentence of the text (as
produced by `_split_into_sentences` on its paragraphs) alone exceeds
`target_size`; the overlap seed can push a closed segment up to `overlap`
words past `target_size`. -/
theorem claim_C3_thm (text : List Char) (cs ov : Nat)
    (hsent : ∀ p ∈ splitParas text, ∀ s ∈ split_into_sentences p, wcL s ≤ cs) :
    ∀ c ∈ chunk_text_intelligently text cs ov, wcL c ≤ cs + ov := by
  intro c hc
  have hinv : chunkInv cs ov ((splitParas text).foldl (paraStep cs ov) ⟨[], [], 0⟩) := by
    refine foldl_paraStep_inv cs ov (splitParas text) ⟨[], [], 0⟩ hsent ?_
    refine ⟨?_, rfl, Nat.zero_le _⟩
    intro u hu
    simp at hu
  simp only [chunk_text_intelligently] at hc
  set fin := (splitParas text).foldl (paraStep cs ov) ⟨[], [], 0⟩ with hfin
  obtain ⟨hchunks, hcur, hsize⟩ := hinv
  rcases List.mem_filter.mp hc with ⟨hmem, _⟩
  by_cases hflush : (pyStrip fin.cur).isEmpty
  · rw [if_pos hflush] at hmem
    exact hchunks c hmem
  · rw [if_neg hflush] at hmem
    rcases List.mem_append.mp hmem with hmem | hmem
    · exact hchunks c hmem
    · rw [List.mem_singleton.mp hmem, wcL_strip, hcur]
      exact hsize

/-- Witness for `claim_C3_thm` at `textDemo`, `chunk_size = 20`,
`overlap = 5`: the single returned segment (which is `textDemo` itself) has
at most 25 words. -/
theorem claim_C3_wit : wcL textDemo ≤ 25 :=
  claim_C3_thm textDemo 20 5 (by decide) textDemo (by decide)

/-! ### Claim C4 -/

/-- Claim C4 (counterexample): consecutive returned segments need not share an
`overlap`-word window.  On `textC4` with `chunk_size = 15`, `overlap = 3`,
the first segment is closed at a paragraph boundary and the second does not
begin with the last 3 words of the first. -/
theorem claim_C4_cex :
    (chunk_text_intelligently textC4 15 3).length = 2 ∧
    ((pyWords ((chunk_text_intelligently textC4 15 3).getD 1 [])).take 3 ≠
      takeLast 3 (pyWords ((chunk_text_intelligently textC4 15 3).getD 0 []))) := by
  decide

/-- Claim C4 (amended): overlap seeding occurs exactly when a segment is
closed during sentence-level splitting of an oversized paragraph: there, with
`overlap > 0`, the next segment's words are the last `overlap` words of the
just-closed segment followed by the words of the sentence.  (A segment closed
at a paragraph boundary starts with the next paragraph alone.) -/
theorem claim_C4_thm (cs ov : Nat) (st : ChunkState) (s : List Char)
    (hov : 0 < ov)
    (hcl : cs < st.size + wcL s)
    (hne : st.cur ≠ []) :
    (sentStep cs ov st s).chunks = st.chunks ++ [pyStrip st.cur] ∧
    pyWords (sentStep cs ov st s).cur = takeLast ov (pyWords st.cur) ++ pyWords s := by
  have hcond : cs < st.size + (pyWords s).length ∧ st.cur ≠ [] := ⟨hcl, hne⟩
  constructor
  · simp only [sentStep, if_pos hcond]
  · simp only [sentStep, if_pos hcond, if_pos hov]
    refine pyWords_joinSp _ ?_
    intro t ht
    rcases List.mem_append.mp ht with ht | ht
    · exact pyWords_tokens st.cur t (mem_of_mem_takeLast ht)
    · exact pyWords_tokens s t ht

/-- A concrete loop state for the `claim_C4_thm` witness: `current_chunk` has
5 words, `current_size = 5`. -/
def chunkStDemo : ChunkState := ⟨[], ("w1 w2 w3 w4 w5").toList, 5⟩

/-- A concrete 2-word sentence for the `claim_C4_thm` witness. -/
def sentDemo : List Char := ("x1 x2.").toList

/-- Witness for `claim_C4_thm`: closing the 5-word chunk at `chunk_size = 6`,
`overlap = 2` emits it and seeds the next chunk with its last 2 words. -/
theorem claim_C4_wit :
    (sentStep 6 2 chunkStDemo sentDemo).chunks = chunkStDemo.chunks ++ [pyStrip chunkStDemo.cur] ∧
    pyWords (sentStep 6 2 chunkStDemo sentDemo).cur =
      takeLast 2 (pyWords chunkStDemo.cur) ++ pyWords sentDemo :=
  claim_C4_thm 6 2 chunkStDemo sentDemo (by decide) (by decide) (by decide)

/-! ### `process_pdf` OCR tier selection (document_processor.py, lines 223-264)

The extraction services themselves (PyPDF2, Textract) are external; they are
modelled as oracle inputs.  `adv` is the outcome of
`_ocr_with_textract_advanced` (the structure-aware analysis, the spec's
Tier 3): `some w` means it returned text of `w` words, `none` means it raised.
`basic` is likewise the outcome of `_ocr_with_textract` (confidence-filtered
basic OCR, the spec's Tier 2), which the code only reaches in the `except`
branch of the advanced call. -/

/-- The possible `processing_method` values of `process_pdf`. -/
inductive PdfMethod
  | pyPDF2
  | advancedOcr
  | basicOcr
deriving DecidableEq, Repr

/-- The OCR escalation of `process_pdf`: with fewer than 50 directly extracted
words, try the advanced structure-aware Textract analysis first; an OCR text
replaces the direct text only if it has strictly more words; basic OCR is
attempted only when the advanced call raises.  Returns the winning
`processing_method` and the adopted word count. -/
def process_pdf_method (direct_words : Nat) (adv : Option Nat) (basic : Option Nat) :
    PdfMethod × Nat :=
  if direct_words < 50 then
    match adv with
    | some w => if direct_words < w then (PdfMethod.advancedOcr, w) else (PdfMethod.pyPDF2, direct_words)
    | none =>
      match basic with
      | some w => if direct_words < w then (PdfMethod.basicOcr, w) else (PdfMethod.pyPDF2, direct_words)
      | none => (PdfMethod.pyPDF2, direct_words)
  else (PdfMethod.pyPDF2, direct_words)

/-- `process_pdf` calls `_ocr_with_textract_advanced` exactly when the direct
extraction yielded fewer than 50 words. -/
def attempts_advanced_ocr (direct_words : Nat) : Bool :=
  direct_words < 50

/-- `process_pdf` calls the basic `_ocr_with_textract` exactly when the direct
extraction yielded fewer than 50 words and the advanced call raised. -/
def attempts_basic_ocr (direct_words : Nat) (adv : Option Nat) : Bool :=
  direct_words < 50 && adv.isNone

/-! ### Claim C5 -/

/-- Claim C5 (counterexample): a document whose direct extraction yields 30
words (below the 50-word floor) and whose advanced structure-aware OCR
succeeds with 200 words never has the confidence-filtered basic OCR (the
spec's Tier 2) attempted at all: the code escalates directly to the
structure-aware analysis (the spec's Tier 3) and tries basic OCR only when
the advanced call raises — not in the spec's Tier 1 → Tier 2 → Tier 3 order. -/
theorem claim_C5_cex :
    attempts_advanced_ocr 30 = true ∧
    attempts_basic_ocr 30 (some 200) = false ∧
    (process_pdf_method 30 (some 200) none).1 = PdfMethod.advancedOcr := by
  decide

/-- Claim C5 (amended): when direct extraction yields fewer than 50 words the
code escalates straight to the advanced structure-aware OCR; the basic
confidence-filtered OCR is attempted exactly when the advanced call raises;
an OCR tier wins (and `processing_method` names it) exactly when it returned
strictly more words than direct extraction. -/
theorem claim_C5_thm (direct_words : Nat) (adv basic : Option Nat)
    (h : direct_words < 50) :
    attempts_advanced_ocr direct_words = true ∧
    (attempts_basic_ocr direct_words adv = true ↔ adv = none) ∧
    ((process_pdf_method direct_words adv basic).1 = PdfMethod.advancedOcr ↔
      ∃ w, adv = some w ∧ direct_words < w) ∧
    ((process_pdf_method direct_words adv basic).1 = PdfMethod.basicOcr ↔
      adv = none ∧ ∃ w, basic = some w ∧ direct_words < w) := by
  refine ⟨by simp [attempts_advanced_ocr, h], ?_, ?_, ?_⟩
  · cases adv <;> simp [attempts_basic_ocr, h]
  · cases adv with
    | none =>
      cases basic with
      | none => simp [process_pdf_method, h]
      | some w =>
        by_cases hw : direct_words < w <;>
          simp [process_pdf_method, h, hw]
    | some w =>
      by_cases hw : direct_words < w <;>
        simp [process_pdf_method, h, hw]
  · cases adv with
    | none =>
      cases basic with
      | none => simp [process_pdf_method, h]
      | some w =>
        by_cases hw : direct_words < w <;>
          simp [process_pdf_method, h, hw]
    | some w =>
      by_cases hw : direct_words < w <;>
        simp [process_pdf_method, h, hw]

/-- Witness for `claim_C5_thm` at 30 direct words with a successful 200-word
advanced OCR: the advanced structure-aware method wins. -/
theorem claim_C5_wit :
    (process_pdf_method 30 (some 200) none).1 = PdfMethod.advancedOcr :=
  ((claim_C5_thm 30 (some 200) none (by decide)).2.2.1).mpr ⟨200, rfl, by decide⟩

/-! ### `_get_titan_embedding` retry loop (document_processor.py, lines 739-781)

The Bedrock service is modelled by `responses : Nat → Option (List Int)`,
giving per attempt either `some emb` (the returned embedding vector) or
`none` (a raised/transient failure or an absent `embedding` field).  The
numeric content of a vector is irrelevant to the claims; only its length is
validated by the code. -/

/-- One `try` body of `_get_titan_embedding`: no embedding raises, a vector of
length ≠ 1536 raises (`Unexpected embedding dimensions`), otherwise the
vector is returned. -/
def titanAttempt (resp : Option (List Int)) : Option (List Int) :=
  match resp with
  | none => none
  | some emb => if emb.length = 1536 then some emb else none

/-- The `for attempt in range(max_retries)` loop of `_get_titan_embedding`:
any raised attempt (transient failure or dimension mismatch alike) is retried
after a backoff sleep until the attempt budget is exhausted. -/
def titanLoop (responses : Nat → Option (List Int)) : Nat → Nat → Option (List Int)
  | _, 0 => none
  | i, k + 1 =>
    match titanAttempt (responses i) with
    | some e => some e
    | none => titanLoop responses (i + 1) k

/-- `_get_titan_embedding(text, max_retries)`: run the retry loop from
attempt 0. -/
def get_titan_embedding (responses : Nat → Option (List Int)) (max_retries : Nat) :
    Option (List Int) :=
  titanLoop responses 0 max_retries

/-- A 3-dimensional (wrong-size) embedding vector. -/
def dimsBad : List Int := List.replicate 3 0

/-- A 1536-dimensional (contract-size) embedding vector. -/
def dimsGood : List Int := List.replicate 1536 0

/-- A Bedrock oracle whose first call returns a wrong-dimension vector and
whose later calls return a valid one. -/
def mismatchResponses : Nat → Option (List Int) :=
  fun i => if i = 0 then some dimsBad else some dimsGood

/-! ### Claim C6 -/

/-- Claim C6 (counterexample): a dimension mismatch is NOT a hard,
non-retried failure.  With a first response of the wrong dimensionality and a
valid second response, `_get_titan_embedding` retries past the mismatch and
returns the valid vector, exactly as it does for transient failures. -/
theorem claim_C6_cex :
    titanAttempt (mismatchResponses 0) = none ∧
    get_titan_embedding mismatchResponses 3 = some dimsGood := by
  have hlen : dimsGood.length = 1536 := List.length_replicate 1536 0
  refine ⟨by decide, ?_⟩
  show titanLoop mismatchResponses 0 3 = some dimsGood
  simp [titanLoop, titanAttempt, mismatchResponses, dimsBad, hlen]

/-- Claim C6 (amended): a returned vector of unexpected dimensionality makes
that attempt raise, but the exception is caught and retried with backoff
exactly like a transient failure: the call returns the first in-budget
attempt whose response is a vector of the contract dimensionality. -/
theorem claim_C6_thm (responses : Nat → Option (List Int)) (n j : Nat) (v : List Int)
    (hj : j < n)
    (hbefore : ∀ i, i < j → titanAttempt (responses i) = none)
    (hgood : titanAttempt (responses j) = some v) :
    get_titan_embedding responses n = some v := by
  suffices h : ∀ (k i j : Nat), j < k →
      (∀ d, d < j → titanAttempt (responses (i + d)) = none) →
      titanAttempt (responses (i + j)) = some v →
      titanLoop responses i k = some v by
    exact h n 0 j hj (fun d hd => by simpa using hbefore d hd) (by simpa using hgood)
  intro k
  induction k with
  | zero => intro i j hj; omega
  | succ k ih =>
    intro i j hjk hbef hg
    cases j with
    | zero =>
      simp only [Nat.add_zero] at hg
      simp [titanLoop, hg]
    | succ j =>
      have h0 : titanAttempt (responses i) = none := by simpa using hbef 0 (by omega)
      simp only [titanLoop, h0]
      refine ih (i + 1) j (by omega) ?_ ?_
      · intro d hd
        have := hbef (d + 1) (by omega)
        simpa [Nat.add_assoc, Nat.add_comm, Nat.add_left_comm] using this
      · simpa [Nat.add_assoc, Nat.add_comm, Nat.add_left_comm] using hg

/-- Witness for `claim_C6_thm`: on `mismatchResponses`, attempt 0 mismatches,
attempt 1 is valid, and the call returns the valid vector. -/
theorem claim_C6_wit : get_titan_embedding mismatchResponses 3 = some dimsGood :=
  claim_C6_thm mismatchResponses 3 1 dimsGood (by decide)
    (fun i hi => by interval_cases i; decide)
    (by
      have hlen : dimsGood.length = 1536 := List.length_replicate 1536 0
      simp [titanAttempt, mismatchResponses, hlen])

/-! ### The job-queue engine (queue_service.py)

State model: `jobs` is the DynamoDB `queue-jobs` table (keyed by `job_id`,
modelled as a list of records with distinct ids where it matters), `visible`
and `in_flight` are the SQS queue's deliverable messages and leased
(received, unacknowledged) messages.  Job ids (source: `uuid.uuid4()`) are
drawn from the `next_id` counter; receipt handles from `next_receipt`;
wall-clock timestamps are `Nat` parameters (`datetime.utcnow()` at each
call).  Job `payload`s and result summaries are opaque (`Nat`). -/

inductive JobStatus
  | queued
  | processing
  | completed
  | failed
  | cancelled
  | pending_approval
  | approved
  | rejected
deriving DecidableEq, Repr

inductive QueueType
  | document_processing
  | approval_workflow
  | maintenance
  | monitoring
deriving DecidableEq, Repr

/-- The `QueueJob` dataclass / DynamoDB record.  `priority` is the stored
integer value of the `JobPriority` enum (LOW=1 .. URGENT=4); `result` is the
optional result summary written by `complete_job`. -/
structure QueueJob where
  job_id : Nat
  queue_type : QueueType
  status : JobStatus
  priority : Nat
  user_id : Nat
  created_at : Nat
  updated_at : Nat
  payload : Nat
  retry_count : Nat := 0
  max_retries : Nat := 3
  processing_started_at : Option Nat := none
  processing_completed_at : Option Nat := none
  error_message : Option String := none
  assigned_worker : Option Nat := none
  estimated_duration : Option Nat := none
  result : Option Nat := none
deriving DecidableEq, Repr

/-- An SQS message as published by `enqueue_job` (its body carries the job id,
queue type and priority; `delay_seconds` is the priority-derived delivery
delay). -/
structure Message where
  job_id : Nat
  queue_type : QueueType
  priority : Nat
  delay_seconds : Nat
deriving DecidableEq, Repr

/-- The `result` dict passed to `complete_job`: an optional summary plus the
optional `_sqs_receipt_handle` entry. -/
structure CompleteResult where
  summary : Nat
  receipt : Option Nat
deriving DecidableEq, Repr

/-- The combined durable state of the queue engine. -/
structure QState where
  jobs : List QueueJob
  visible : List Message
  in_flight : List (Nat × Message)
  next_id : Nat
  next_receipt : Nat
deriving DecidableEq, Repr

/-- DynamoDB `update_item(Key={'job_id': jid}, ...)`: apply `f` to the record
with the given key. -/
def updateJob (jid : Nat) (f : QueueJob → QueueJob) (jobs : List QueueJob) : List QueueJob :=
  jobs.map (fun j => if j.job_id = jid then f j else j)

/-- Remove the first list element satisfying `p` (an SQS receive takes one
matching message out of the visible pool). -/
def removeFirstP {α : Type _} (p : α → Bool) : List α → List α
  | [] => []
  | x :: xs => if p x then xs else x :: removeFirstP p xs

/-- `JobQueueService.enqueue_job`: create the job record (status=queued,
retry_count=0), write it to the table, and publish a broker message whose
delay is `max(0, (4 - priority) * 2)` seconds (urgent=0s .. low=6s).  Returns
the generated job id. -/
def enqueue_job (st : QState) (now : Nat) (qt : QueueType) (payload : Nat)
    (user_id : Nat) (priority : Nat) (est : Option Nat) : Nat × QState :=
  let jid := st.next_id
  let job : QueueJob :=
    { job_id := jid, queue_type := qt, status := JobStatus.queued, priority := priority,
      user_id := user_id, created_at := now, updated_at := now, payload := payload,
      estimated_duration := est }
  let msg : Message :=
    { job_id := jid, queue_type := qt, priority := priority,
      delay_seconds := (4 - priority) * 2 }
  (jid,
   { st with
     jobs := st.jobs ++ [job]
     visible := st.visible ++ [msg]
     next_id := st.next_id + 1 })

/-- `JobQueueService.dequeue_job`: receive one visible message of the queue
type (none = empty queue, the normal timeout outcome), lease it (move to
`in_flight` under a fresh receipt handle), and transition the corresponding
record to status=processing with `processing_started_at` and
`assigned_worker` stamped.  The receipt handle (which the source stashes in
the returned job's in-memory payload dict, not in the table) is returned
alongside the updated record. -/
def dequeue_job (st : QState) (now : Nat) (qt : QueueType) (worker_id : Nat) :
    Option (QueueJob × Nat) × QState :=
  match st.visible.find? (fun m => m.queue_type == qt) with
  | none => (none, st)
  | some m =>
    let receipt := st.next_receipt
    let upd := fun (j : QueueJob) =>
      { j with status := JobStatus.processing, updated_at := now,
               processing_started_at := some now, assigned_worker := some worker_id }
    let jobs := updateJob m.job_id upd st.jobs
    let st2 : QState :=
      { st with
        jobs := jobs
        visible := removeFirstP (fun n => n.queue_type == qt) st.visible
        in_flight := st.in_flight ++ [(receipt, m)]
        next_receipt := st.next_receipt + 1 }
    match jobs.find? (fun j => j.job_id == m.job_id) with
    | none => (none, st2)
    | some j => (some (j, receipt), st2)

/-- `JobQueueService.complete_job`: a missing record raises (caught, returning
`False`); otherwise the record gets status=completed, `updated_at` and
`processing_completed_at` stamped, the result summary stored when a truthy
`result` was passed, and the broker message is deleted only when the passed
`result` dict contains a `_sqs_receipt_handle` entry. -/
def complete_job (st : QState) (now : Nat) (jid : Nat) (result : Option CompleteResult) :
    Bool × QState :=
  match st.jobs.find? (fun j => j.job_id == jid) with
  | none => (false, st)
  | some _ =>
    let upd := fun (j : QueueJob) =>
      { j with status := JobStatus.completed, updated_at := now,
               processing_completed_at := some now,
               result := match result with
                 | some r => some r.summary
                 | none => j.result }
    let in_flight2 := match result with
      | some r =>
        match r.receipt with
        | some rc => st.in_flight.filter (fun pr => pr.1 ≠ rc)
        | none => st.in_flight
      | none => st.in_flight
    (true, { st with jobs := updateJob jid upd st.jobs, in_flight := in_flight2 })

/-- `JobQueueService.fail_job`: a missing record raises (caught, `False`).
With `retry=True` and `retry_count < max_retries` the record is set back to
queued with `retry_count + 1` and the error recorded, and a NEW job is
enqueued (via `enqueue_job`, so with a fresh id and `retry_count = 0`)
carrying the same payload/user at priority `min(4, priority + 1)`.
Otherwise the record is marked failed terminally with
`processing_completed_at` stamped; nothing is published. -/
def fail_job (st : QState) (now : Nat) (jid : Nat) (err : String) (retry : Bool) :
    Bool × QState :=
  match st.jobs.find? (fun j => j.job_id == jid) with
  | none => (false, st)
  | some job =>
    if retry = true ∧ job.retry_count < job.max_retries then
      let upd := fun (j : QueueJob) =>
        { j with retry_count := job.retry_count + 1, updated_at := now,
                 error_message := some err, status := JobStatus.queued }
      let st1 := { st with jobs := updateJob jid upd st.jobs }
      let priority := min 4 (job.priority + 1)
      (true, (enqueue_job st1 now job.queue_type job.payload job.user_id priority none).2)
    else
      let upd := fun (j : QueueJob) =>
        { j with status := JobStatus.failed, updated_at := now,
                 error_message := some err, processing_completed_at := some now }
      (true, { st with jobs := updateJob jid upd st.jobs })

/-- `JobQueueService.get_job_status`: read one record by key. -/
def get_job_status (st : QState) (jid : Nat) : Option QueueJob :=
  st.jobs.find? (fun j => j.job_id == jid)

/-- The scan filter of `purge_completed_jobs`:
`#status IN (:completed, :failed) AND processing_completed_at < :cutoff`
(a record without `processing_completed_at` never matches, per DynamoDB
missing-attribute comparison semantics). -/
def purgeable (cutoff : Nat) (j : QueueJob) : Bool :=
  (j.status == JobStatus.completed || j.status == JobStatus.failed) &&
    (match j.processing_completed_at with
     | some t => t < cutoff
     | none => false)

/-- DynamoDB `delete_item(Key={'job_id': jid})`. -/
def delete_item (jobs : List QueueJob) (jid : Nat) : List QueueJob :=
  jobs.filter (fun j => j.job_id ≠ jid)

/-- `JobQueueService.purge_completed_jobs(days_old)`: scan for records that
are completed/failed with `processing_completed_at` older than the cutoff
(`now - days_old` days, in seconds), then delete them one by one, counting
deletions. -/
def purge_completed_jobs (st : QState) (now days_old : Nat) : Nat × QState :=
  let cutoff := now - days_old * 86400
  let victims := (st.jobs).filter (purgeable cutoff)
  let fin := victims.foldl
    (fun (acc : Nat × List QueueJob) it => (acc.1 + 1, delete_item acc.2 it.job_id))
    (0, st.jobs)
  (fin.1, { st with jobs := fin.2 })

/-! ### Table-lookup lemmas -/

theorem find?_updateJob (jid : Nat) (f : QueueJob → QueueJob)
    (hf : ∀ j, (f j).job_id = j.job_id) :
    ∀ jobs : List QueueJob,
      (updateJob jid f jobs).find? (fun j => j.job_id == jid) =
        (jobs.find? (fun j => j.job_id == jid)).map f := by
  intro jobs
  induction jobs with
  | nil => rfl
  | cons j js ih =>
    by_cases h : j.job_id = jid
    · have h1 : ((if j.job_id = jid then f j else j).job_id == jid) = true := by
        rw [if_pos h, hf j, h]
        simp
      have h2 : (j.job_id == jid) = true := by simp [h]
      simp only [updateJob, List.map_cons, List.find?_cons, h1, h2]
      rw [if_pos h]
      rfl
    · have h1 : ((if j.job_id = jid then f j else j).job_id == jid) = false := by
        rw [if_neg h]
        simp [h]
      have h2 : (j.job_id == jid) = false := by simp [h]
      simp only [updateJob, List.map_cons, List.find?_cons, h1, h2]
      simpa [updateJob] using ih

theorem find?_updateJob_ne (jid oid : Nat) (f : QueueJob → QueueJob)
    (hf : ∀ j, (f j).job_id = j.job_id) (hne : oid ≠ jid) :
    ∀ jobs : List QueueJob,
      (updateJob jid f jobs).find? (fun j => j.job_id == oid) =
        jobs.find? (fun j => j.job_id == oid) := by
  intro jobs
  induction jobs with
  | nil => rfl
  | cons j js ih =>
    have hup : ((if j.job_id = jid then f j else j).job_id == oid) = (j.job_id == oid) := by
      by_cases hj : j.job_id = jid
      · rw [if_pos hj, hf j]
      · rw [if_neg hj]
    by_cases h : j.job_id = oid
    · have hj : ¬ j.job_id = jid := by
        rw [h]
        exact hne
      have h2 : (j.job_id == oid) = true := by simp [h]
      simp only [updateJob, List.map_cons, List.find?_cons, hup, h2]
      rw [if_neg hj]
    · have h2 : (j.job_id == oid) = false := by simp [h]
      simp only [updateJob, List.map_cons, List.find?_cons, hup, h2]
      simpa [updateJob] using ih

theorem length_updateJob (jid : Nat) (f : QueueJob → QueueJob) (jobs : List QueueJob) :
    (updateJob jid f jobs).length = jobs.length := by
  unfold updateJob
  rw [List.length_map]

/-- A concrete in-processing job record used by queue-engine witnesses. -/
def jobDemo : QueueJob :=
  { job_id := 1, queue_type := QueueType.document_processing, status := JobStatus.processing,
    priority := 2, user_id := 7, created_at := 0, updated_at := 0, payload := 5,
    processing_started_at := some 1 }

/-- A concrete queue state holding only `jobDemo`. -/
def stDemoQ : QState :=
  { jobs := [jobDemo], visible := [], in_flight := [], next_id := 2, next_receipt := 0 }

/-! ### Claim C1 -/

/-- Claim C1: failing a job with `retry=True` while `retry_count < max_retries`
leaves the job record (observed through `get_job_status`) in status=queued,
with `retry_count` incremented by exactly one, the error message recorded,
and its priority raised by at most one level, capped at urgent (=4).
(In fact the original record's priority is unchanged; the priority bump is
applied to the re-enqueued replacement job, see C10.) -/
theorem claim_C1_thm (st : QState) (now jid : Nat) (err : String) (j : QueueJob)
    (hfind : get_job_status st jid = some j)
    (hprio : j.priority ≤ 4)
    (hretry : j.retry_count < j.max_retries) :
    ∃ j2, get_job_status (fail_job st now jid err true).2 jid = some j2 ∧
      j2.status = JobStatus.queued ∧
      j2.retry_count = j.retry_count + 1 ∧
      j2.error_message = some err ∧
      j.priority ≤ j2.priority ∧ j2.priority ≤ min (j.priority + 1) 4 := by
  have hf : st.jobs.find? (fun x => x.job_id == jid) = some j := hfind
  simp only [fail_job, hf]
  rw [if_pos (show True ∧ j.retry_count < j.max_retries from ⟨trivial, hretry⟩)]
  simp only [enqueue_job, get_job_status]
  rw [List.find?_append,
    find?_updateJob jid
      (fun jj => { jj with retry_count := j.retry_count + 1, updated_at := now,
                           error_message := some err, status := JobStatus.queued })
      (fun r => rfl) st.jobs,
    hf]
  refine ⟨_, rfl, rfl, rfl, rfl, Nat.le_refl _, ?_⟩
  show j.priority ≤ min (j.priority + 1) 4
  omega

/-- Witness for `claim_C1_thm`: failing `jobDemo` (retry budget unspent) with
retry leaves its record with `retry_count = 1`. -/
theorem claim_C1_wit :
    (get_job_status (fail_job stDemoQ 5 1 "boom" true).2 1).map QueueJob.retry_count =
      some 1 := by
  obtain ⟨j2, h1, h2, h3, h4, h5, h6⟩ :=
    claim_C1_thm stDemoQ 5 1 "boom" jobDemo (by decide) (by decide) (by decide)
  rw [h1]
  show some j2.retry_count = some 1
  rw [h3]
  rfl

/-! ### Claim C2 -/

/-- Claim C2 (counterexample): the explicit-cancellation path
(`fail_job(job_id, "Cancelled by user", retry=False)`, as invoked by the
dashboard's `cancel_job`) sets status=failed, not status=cancelled: the
`cancelled` status exists in the enum but `fail_job` never assigns it. -/
theorem claim_C2_cex :
    (get_job_status (fail_job stDemoQ 5 1 "Cancelled by user" false).2 1).map QueueJob.status =
      some JobStatus.failed ∧ JobStatus.failed ≠ JobStatus.cancelled := by
  decide

/-- Claim C2 (amended): a job failed with `retry=False`, or whose retries are
exhausted, reaches the terminal status `failed` (also for explicit
cancellation — `cancelled` is never assigned by `fail_job`), gets
`processing_completed_at` stamped and the error recorded, and is never
re-enqueued: no broker message is published and no record is added. -/
theorem claim_C2_thm (st : QState) (now jid : Nat) (err : String) (retry : Bool)
    (j : QueueJob)
    (hfind : get_job_status st jid = some j)
    (hterm : retry = false ∨ j.max_retries ≤ j.retry_count) :
    (∃ j2, get_job_status (fail_job st now jid err retry).2 jid = some j2 ∧
      j2.status = JobStatus.failed ∧
      j2.processing_completed_at = some now ∧
      j2.error_message = some err) ∧
    (fail_job st now jid err retry).2.visible = st.visible ∧
    (fail_job st now jid err retry).2.in_flight = st.in_flight ∧
    (fail_job st now jid err retry).2.jobs.length = st.jobs.length := by
  have hf : st.jobs.find? (fun x => x.job_id == jid) = some j := hfind
  have hncond : ¬ (retry = true ∧ j.retry_count < j.max_retries) := by
    rintro ⟨h1, h2⟩
    rcases hterm with h | h
    · rw [h] at h1
      exact absurd h1 (by decide)
    · omega
  simp only [fail_job, hf]
  rw [if_neg hncond]
  refine ⟨?_, rfl, rfl, ?_⟩
  · simp only [get_job_status]
    rw [find?_updateJob jid
      (fun jj => { jj with status := JobStatus.failed, updated_at := now,
                           error_message := some err, processing_completed_at := some now })
      (fun r => rfl) st.jobs,
      hf]
    exact ⟨_, rfl, rfl, rfl, rfl⟩
  · exact length_updateJob jid _ st.jobs

/-- Witness for `claim_C2_thm`: terminally failing `jobDemo` publishes
nothing (the visible message pool is unchanged). -/
theorem claim_C2_wit :
    (fail_job stDemoQ 5 1 "boom" false).2.visible = stDemoQ.visible := by
  obtain ⟨h1, h2, h3, h4⟩ :=
    claim_C2_thm stDemoQ 5 1 "boom" false jobDemo (by decide) (Or.inl rfl)
  exact h2

/-! ### Claim C7 -/

/-- The queue state after enqueueing one document-processing job into an
empty system (at time 1). -/
def stC7a : QState :=
  (enqueue_job ⟨[], [], [], 0, 0⟩ 1 QueueType.document_processing 5 7 2 none).2

/-- The state after worker 42 dequeues that job (at time 2): the record is
processing and the message is leased (in flight). -/
def stC7 : QState := (dequeue_job stC7a 2 QueueType.document_processing 42).2

/-- The job record held in `stC7` (job 0 as updated by the dequeue). -/
def jobC7 : QueueJob :=
  { job_id := 0, queue_type := QueueType.document_processing, status := JobStatus.processing,
    priority := 2, user_id := 7, created_at := 1, updated_at := 2, payload := 5,
    processing_started_at := some 2, assigned_worker := some 42 }

/-- Claim C7 (counterexample): completing a dequeued job does NOT in general
remove the broker message.  `dequeue_job` stores the receipt handle in the
returned job's in-memory payload — not in the result dict — so a
`complete_job` whose result lacks the `_sqs_receipt_handle` key (here: a
bare summary) marks the record completed but leaves the leased message in
flight, undeleted. -/
theorem claim_C7_cex :
    ((dequeue_job stC7a 2 QueueType.document_processing 42).1.map
      (fun pr => pr.1.job_id)) = some 0 ∧
    stC7.in_flight ≠ [] ∧
    (complete_job stC7 3 0 (some ⟨9, none⟩)).1 = true ∧
    (get_job_status (complete_job stC7 3 0 (some ⟨9, none⟩)).2 0).map QueueJob.status =
      some JobStatus.completed ∧
    (complete_job stC7 3 0 (some ⟨9, none⟩)).2.in_flight = stC7.in_flight := by
  decide

/-- Claim C7 (amended): `complete_job` on an existing record returns True,
sets status=completed, stamps `processing_completed_at`, stores the result
summary when one is passed, and deletes the broker message if and only if
the caller's result dict contains the `_sqs_receipt_handle` entry (which
`dequeue_job` stored in the returned job's payload, not in the result);
otherwise the leased message is left in flight. -/
theorem claim_C7_thm (st : QState) (now jid : Nat) (result : Option CompleteResult)
    (j : QueueJob) (hfind : get_job_status st jid = some j) :
    (complete_job st now jid result).1 = true ∧
    (∃ j2, get_job_status (complete_job st now jid result).2 jid = some j2 ∧
      j2.status = JobStatus.completed ∧
      j2.processing_completed_at = some now ∧
      j2.result = (match result with | some r => some r.summary | none => j.result)) ∧
    ((result = none ∨ (∃ r, result = some r ∧ r.receipt = none)) →
      (complete_job st now jid result).2.in_flight = st.in_flight) ∧
    (∀ r rc, result = some r → r.receipt = some rc →
      (complete_job st now jid result).2.in_flight =
        st.in_flight.filter (fun pr => pr.1 ≠ rc)) ∧
    (complete_job st now jid result).2.visible = st.visible := by
  have hf : st.jobs.find? (fun x => x.job_id == jid) = some j := hfind
  simp only [complete_job, hf]
  refine ⟨by trivial, ?_, ?_, ?_, by trivial⟩
  · simp only [get_job_status]
    rw [find?_updateJob jid
      (fun jj => { jj with status := JobStatus.completed, updated_at := now,
                           processing_completed_at := some now,
                           result := match result with
                             | some r => some r.summary
                             | none => jj.result })
      (fun r => rfl) st.jobs,
      hf]
    cases result with
    | none => exact ⟨_, rfl, rfl, rfl, rfl⟩
    | some r => exact ⟨_, rfl, rfl, rfl, rfl⟩
  · rintro (h | ⟨r, rfl, hr⟩)
    · rw [h]
    · obtain ⟨sum, rec⟩ := r
      have hr2 : rec = none := hr
      subst hr2
      rfl
  · rintro r rc rfl hr
    obtain ⟨sum, rec⟩ := r
    have hr2 : rec = some rc := hr
    subst hr2
    rfl

/-- Witness for `claim_C7_thm`: completing job 0 of `stC7` with a result that
does carry the receipt handle (handle 0) filters the leased message out. -/
theorem claim_C7_wit :
    (complete_job stC7 3 0 (some ⟨9, some 0⟩)).2.in_flight =
      stC7.in_flight.filter (fun pr => pr.1 ≠ 0) := by
  obtain ⟨h1, h2, h3, h4, h5⟩ :=
    claim_C7_thm stC7 3 0 (some ⟨9, some 0⟩) jobC7 (by decide)
  exact h4 ⟨9, some 0⟩ 0 rfl rfl

theorem find?_id_eq_none (nid : Nat) (jobs : List QueueJob)
    (h : ∀ j0 ∈ jobs, j0.job_id ≠ nid) :
    jobs.find? (fun x => x.job_id == nid) = none := by
  rw [List.find?_eq_none]
  intro x hx
  simp [h x hx]

theorem updateJob_id_ne (jid nid : Nat) (f : QueueJob → QueueJob)
    (hf : ∀ j, (f j).job_id = j.job_id) (jobs : List QueueJob)
    (h : ∀ j0 ∈ jobs, j0.job_id ≠ nid) :
    ∀ x ∈ updateJob jid f jobs, x.job_id ≠ nid := by
  intro x hx
  rcases List.mem_map.mp hx with ⟨j0, hj0, rfl⟩
  by_cases hc : j0.job_id = jid
  · rw [if_pos hc, hf j0]
    exact h j0 hj0
  · rw [if_neg hc]
    exact h j0 hj0

/-! ### Claim C10 -/

/-- Claim C10: the retry path of `fail_job` re-enqueues by creating an
additional record under a freshly generated job id with `retry_count = 0`,
and the newly published broker message carries that new id, not the original
one; `fail_job` publishes nothing under the original id (and touches no
leased message), so the engine's own re-enqueue never re-delivers the
original id.  Freshness is the table invariant that all stored ids precede
the id counter. -/
theorem claim_C10_thm (st : QState) (now jid : Nat) (err : String) (j : QueueJob)
    (hfind : get_job_status st jid = some j)
    (hretry : j.retry_count < j.max_retries)
    (hfresh : ∀ j0 ∈ st.jobs, j0.job_id < st.next_id) :
    (∃ j2, get_job_status (fail_job st now jid err true).2 st.next_id = some j2 ∧
      j2.retry_count = 0 ∧ j2.job_id = st.next_id ∧ j2.status = JobStatus.queued) ∧
    jid ≠ st.next_id ∧
    (∀ j0 ∈ st.jobs, j0.job_id ≠ st.next_id) ∧
    (∃ m, (fail_job st now jid err true).2.visible = st.visible ++ [m] ∧
      m.job_id = st.next_id) ∧
    (fail_job st now jid err true).2.in_flight = st.in_flight := by
  have hf : st.jobs.find? (fun x => x.job_id == jid) = some j := hfind
  have hjid : j.job_id = jid := by
    have := List.find?_some hf
    simpa using this
  have hmem : j ∈ st.jobs := List.mem_of_find?_eq_some hf
  have hlt : jid < st.next_id := hjid ▸ hfresh j hmem
  simp only [fail_job, hf]
  rw [if_pos (show True ∧ j.retry_count < j.max_retries from ⟨trivial, hretry⟩)]
  simp only [enqueue_job, get_job_status]
  refine ⟨?_, by omega, ?_, ⟨_, by trivial, rfl⟩, by trivial⟩
  · have h1 := find?_id_eq_none st.next_id
      (updateJob jid
        (fun jj => { jj with retry_count := j.retry_count + 1, updated_at := now,
                             error_message := some err, status := JobStatus.queued })
        st.jobs)
      (updateJob_id_ne jid st.next_id
        (fun jj => { jj with retry_count := j.retry_count + 1, updated_at := now,
                             error_message := some err, status := JobStatus.queued })
        (fun r => rfl) st.jobs
        (fun j0 hj0 => by have := hfresh j0 hj0; omega))
    exact ⟨_, by
      rw [List.find?_append, h1, Option.none_or,
        List.find?_cons_of_pos _ (by simp)],
      rfl, rfl, rfl⟩
  · intro j0 hj0
    have := hfresh j0 hj0
    omega

/-- Witness for `claim_C10_thm`: retry-failing `jobDemo` creates the fresh
job 2 (the counter value of `stDemoQ`) with `retry_count = 0`. -/
theorem claim_C10_wit :
    (get_job_status (fail_job stDemoQ 5 1 "boom" true).2 stDemoQ.next_id).map
      QueueJob.retry_count = some 0 := by
  obtain ⟨⟨j2, h1, h2, h3, h4⟩, h5, h6, h7, h8⟩ :=
    claim_C10_thm stDemoQ 5 1 "boom" jobDemo (by decide) (by decide) (by decide)
  rw [h1]
  show some j2.retry_count = some 0
  rw [h2]

/-! ### `_generate_vector_sidecar` (document_processor.py, lines 535-647)

Embedding calls are the oracle `embed : Nat → Option (List Int)` (the
per-chunk outcome of `_get_titan_embedding`: `some` vector or a raised
failure).  Sidecar fields that cannot affect the claims (timestamps, hashes,
token estimates, timing statistics, the rounded success-rate percentage —
which is determined by the successful/total counts kept here) are omitted. -/

/-- One chunk entry of the sidecar's `chunks` array. -/
structure EmbChunk where
  chunk_index : Nat
  text : List Char
  embedding : List Int
deriving DecidableEq, Repr

/-- The sidecar document produced by `_generate_vector_sidecar`. -/
structure VectorSidecar where
  total_chunks : Nat
  successful_chunks : Nat
  failed_chunks : Nat
  chunk_size : Nat
  overlap_size : Nat
  chunks : List EmbChunk
deriving DecidableEq, Repr

/-- The dynamic chunk size: 256 words below 500 total words, 512 below 2000,
1024 otherwise. -/
def sidecar_chunk_size (text : List Char) : Nat :=
  if wcL text < 500 then 256 else if wcL text < 2000 then 512 else 1024

/-- The dynamic overlap: `min(100, chunk_size // 10)`. -/
def sidecar_overlap (text : List Char) : Nat :=
  min 100 (sidecar_chunk_size text / 10)

/-- The body of `for i, chunk in enumerate(chunks)`: a successful embedding is
appended to the `embeddings` list, a raised one increments `failed_chunks`
and continues. -/
def sidecarStep (embed : Nat → Option (List Int)) (acc : List EmbChunk × Nat)
    (ic : Nat × List Char) : List EmbChunk × Nat :=
  match embed ic.1 with
  | some e => (acc.1 ++ [⟨ic.1, ic.2, e⟩], acc.2)
  | none => (acc.1, acc.2 + 1)

/-- `_generate_vector_sidecar(text_content, source)`: chunk with the dynamic
size/overlap, raise (`none`) when no chunks were produced, embed each chunk
counting per-chunk failures, raise when no embedding succeeded, and otherwise
return the sidecar with the per-chunk results and quality counts. -/
def generate_vector_sidecar (text : List Char) (embed : Nat → Option (List Int)) :
    Option VectorSidecar :=
  let cs := sidecar_chunk_size text
  let ov := sidecar_overlap text
  let chunks := chunk_text_intelligently text cs ov
  if chunks.isEmpty then none
  else
    let r := chunks.enum.foldl (sidecarStep embed) ([], 0)
    if r.1.isEmpty then none
    else
      some { total_chunks := chunks.length, successful_chunks := r.1.length,
             failed_chunks := r.2, chunk_size := cs, overlap_size := ov, chunks := r.1 }

theorem sidecarStep_foldl (embed : Nat → Option (List Int)) :
    ∀ (l : List (Nat × List Char)) (acc : List EmbChunk × Nat),
      (l.foldl (sidecarStep embed) acc).2 =
        acc.2 + l.countP (fun ic => (embed ic.1).isNone) ∧
      (l.foldl (sidecarStep embed) acc).1.length =
        acc.1.length + l.countP (fun ic => (embed ic.1).isSome) ∧
      ((l.foldl (sidecarStep embed) acc).1 = [] ↔
        acc.1 = [] ∧ ∀ ic ∈ l, embed ic.1 = none) := by
  intro l
  induction l with
  | nil =>
    intro acc
    simp
  | cons ic l ih =>
    intro acc
    simp only [List.foldl_cons, List.countP_cons]
    cases h : embed ic.1 with
    | none =>
      have hstep : sidecarStep embed acc ic = (acc.1, acc.2 + 1) := by
        simp [sidecarStep, h]
      rw [hstep]
      obtain ⟨ih1, ih2, ih3⟩ := ih (acc.1, acc.2 + 1)
      refine ⟨?_, ?_, ?_⟩
      · rw [ih1]
        simp [h]
        omega
      · rw [ih2]
        simp [h]
      · rw [ih3]
        simp [h]
    | some e =>
      have hstep : sidecarStep embed acc ic = (acc.1 ++ [⟨ic.1, ic.2, e⟩], acc.2) := by
        simp [sidecarStep, h]
      rw [hstep]
      obtain ⟨ih1, ih2, ih3⟩ := ih (acc.1 ++ [⟨ic.1, ic.2, e⟩], acc.2)
      refine ⟨?_, ?_, ?_⟩
      · rw [ih1]
        simp [h]
      · rw [ih2]
        simp [h]
        omega
      · rw [ih3]
        simp [h]

theorem forall_mem_enum_fst {α : Type _} (l : List α) (P : Nat → Prop) :
    (∀ ic ∈ l.enum, P ic.1) ↔ ∀ i, i < l.length → P i := by
  constructor
  · intro h i hi
    have hmem : i ∈ (l.enum).map Prod.fst := by
      rw [List.enum_map_fst]
      exact List.mem_range.mpr hi
    rcases List.mem_map.mp hmem with ⟨ic, hic, rfl⟩
    exact h ic hic
  · intro h ic hic
    have hmem : ic.1 ∈ (l.enum).map Prod.fst := List.mem_map_of_mem _ hic
    rw [List.enum_map_fst] at hmem
    exact h ic.1 (List.mem_range.mp hmem)

/-! ### Claim C8 -/

/-- Claim C8: per-segment embedding failures are counted (`failed_chunks`,
with `successful_chunks` they determine the recorded success ratio) but do
not abort the document: sidecar generation raises (`none`) exactly when every
chunk's embedding fails — i.e., it succeeds iff at least one segment embeds.
Stated for any text that yields at least one chunk. -/
theorem claim_C8_thm (text : List Char) (embed : Nat → Option (List Int))
    (hne : chunk_text_intelligently text (sidecar_chunk_size text) (sidecar_overlap text) ≠ []) :
    (generate_vector_sidecar text embed = none ↔
      ∀ i, i < (chunk_text_intelligently text (sidecar_chunk_size text)
        (sidecar_overlap text)).length → embed i = none) ∧
    (∀ sc, generate_vector_sidecar text embed = some sc →
      sc.total_chunks = (chunk_text_intelligently text (sidecar_chunk_size text)
        (sidecar_overlap text)).length ∧
      sc.failed_chunks = (chunk_text_intelligently text (sidecar_chunk_size text)
        (sidecar_overlap text)).enum.countP (fun ic => (embed ic.1).isNone) ∧
      sc.successful_chunks = (chunk_text_intelligently text (sidecar_chunk_size text)
        (sidecar_overlap text)).enum.countP (fun ic => (embed ic.1).isSome)) := by
  set chunks := chunk_text_intelligently text (sidecar_chunk_size text) (sidecar_overlap text)
    with hchunks
  have hempty : chunks.isEmpty = false := by
    cases hc : chunks.isEmpty
    · rfl
    · exact absurd (by simpa [List.isEmpty_iff] using hc) hne
  obtain ⟨hc1, hc2, hc3⟩ := sidecarStep_foldl embed chunks.enum ([], 0)
  simp only [generate_vector_sidecar, ← hchunks, hempty, Bool.false_eq_true, if_false]
  constructor
  · cases hr : (chunks.enum.foldl (sidecarStep embed) ([], 0)).1.isEmpty
    · rw [if_neg (by simp [hr])]
      constructor
      · intro hcontra
        exact absurd hcontra (by simp)
      · intro hall
        have hnil : (chunks.enum.foldl (sidecarStep embed) ([], 0)).1 = [] :=
          hc3.mpr ⟨rfl, (forall_mem_enum_fst chunks (fun i => embed i = none)).mpr hall⟩
        exact absurd hnil (ne_nil_of_isEmpty_eq_false hr)
    · rw [if_pos (by simp [hr])]
      constructor
      · intro _
        have : (chunks.enum.foldl (sidecarStep embed) ([], 0)).1 = [] := by
          simpa [List.isEmpty_iff] using hr
        have hall := (hc3.mp this).2
        exact (forall_mem_enum_fst chunks (fun i => embed i = none)).mp hall
      · intro _
        rfl
  · intro sc hsc
    cases hr : (chunks.enum.foldl (sidecarStep embed) ([], 0)).1.isEmpty
    · rw [if_neg (by simp [hr])] at hsc
      cases hsc
      refine ⟨rfl, ?_, ?_⟩
      · rw [hc1]
        simp
      · rw [hc2]
        simp
    · rw [if_pos (by simp [hr])] at hsc
      cases hsc

/-- Witness for `claim_C8_thm` at `textDemo` with an always-succeeding
embedding oracle: sidecar generation does not fail. -/
theorem claim_C8_wit :
    generate_vector_sidecar textDemo (fun _ => some dimsGood) ≠ none := by
  have h := claim_C8_thm textDemo (fun _ => some dimsGood) (by decide)
  intro hn
  have hx := h.1.mp hn 0 (by decide)
  simp at hx

/-! ### Claim C9 -/

theorem purge_foldl_split (vs : List QueueJob) :
    ∀ (n : Nat) (cur : List QueueJob),
      vs.foldl (fun (acc : Nat × List QueueJob) it => (acc.1 + 1, delete_item acc.2 it.job_id))
        (n, cur) =
      (n + vs.length, vs.foldl (fun c it => delete_item c it.job_id) cur) := by
  induction vs with
  | nil => intro n cur; simp
  | cons v vs ih =>
    intro n cur
    simp only [List.foldl_cons]
    rw [ih]
    simp only [List.length_cons]
    refine congrArg (fun k => (k, _)) ?_
    omega

theorem foldl_delete_eq_filter :
    ∀ (vs cur : List QueueJob),
      vs.foldl (fun c it => delete_item c it.job_id) cur =
        cur.filter (fun j => !vs.any (fun v => v.job_id == j.job_id)) := by
  intro vs
  induction vs with
  | nil =>
    intro cur
    simp
  | cons v vs ih =>
    intro cur
    simp only [List.foldl_cons]
    rw [ih]
    unfold delete_item
    rw [List.filter_filter]
    refine List.filter_congr ?_
    intro x hx
    by_cases h : v.job_id = x.job_id
    · simp [h]
    · simp [h, Ne.symm h]

/-- Claim C9: `purge_completed_jobs(days_old)` deletes exactly the records
with status in {completed, failed} whose `processing_completed_at` is older
than the cutoff; records in any other status (queued, processing, ...) are
kept regardless of age, and the returned count equals the number of records
deleted.  The hypothesis is the table invariant that job ids are unique. -/
theorem claim_C9_thm (st : QState) (now days_old : Nat)
    (hids : (st.jobs.map QueueJob.job_id).Nodup) :
    (purge_completed_jobs st now days_old).2.jobs =
      st.jobs.filter (fun j => !purgeable (now - days_old * 86400) j) ∧
    (purge_completed_jobs st now days_old).1 =
      (st.jobs.filter (purgeable (now - days_old * 86400))).length := by
  set cutoff := now - days_old * 86400 with hcut
  have hsplit := purge_foldl_split (st.jobs.filter (purgeable cutoff)) 0 st.jobs
  constructor
  · show (purge_completed_jobs st now days_old).2.jobs = _
    simp only [purge_completed_jobs, ← hcut, hsplit]
    rw [foldl_delete_eq_filter]
    refine List.filter_congr ?_
    intro x hx
    have hiff : (st.jobs.filter (purgeable cutoff)).any (fun v => v.job_id == x.job_id) =
        purgeable cutoff x := by
      cases hp : purgeable cutoff x with
      | true =>
        have hxv : x ∈ st.jobs.filter (purgeable cutoff) :=
          List.mem_filter.mpr ⟨hx, hp⟩
        exact List.any_eq_true.mpr ⟨x, hxv, by simp⟩
      | false =>
        cases hany : (st.jobs.filter (purgeable cutoff)).any (fun v => v.job_id == x.job_id) with
        | false => rfl
        | true =>
          exfalso
          rcases List.any_eq_true.mp hany with ⟨v, hv, hvx⟩
          rcases List.mem_filter.mp hv with ⟨hvmem, hvp⟩
          have hvx2 : v.job_id = x.job_id := by simpa using hvx
          have : v = x := List.inj_on_of_nodup_map hids hvmem hx hvx2
          rw [this] at hvp
          rw [hvp] at hp
          exact absurd hp (by decide)

    rw [hiff]
  · show (purge_completed_jobs st now days_old).1 = _
    simp only [purge_completed_jobs, ← hcut, hsplit]
    simp

/-- Witness input for `claim_C9_thm`: an old completed job, an old failed
job, a fresh completed job and an ancient still-queued job. -/
def stC9 : QState :=
  { jobs :=
      [{ job_id := 0, queue_type := QueueType.document_processing,
         status := JobStatus.completed, priority := 2, user_id := 7, created_at := 0,
         updated_at := 10, payload := 1, processing_completed_at := some 10 },
       { job_id := 1, queue_type := QueueType.document_processing,
         status := JobStatus.failed, priority := 2, user_id := 7, created_at := 0,
         updated_at := 20, payload := 2, processing_completed_at := some 20 },
       { job_id := 2, queue_type := QueueType.document_processing,
         status := JobStatus.completed, priority := 2, user_id := 7, created_at := 0,
         updated_at := 9000000, payload := 3, processing_completed_at := some 9000000 },
       { job_id := 3, queue_type := QueueType.document_processing,
         status := JobStatus.queued, priority := 2, user_id := 7, created_at := 0,
         updated_at := 0, payload := 4 }],
    visible := [], in_flight := [], next_id := 4, next_receipt := 0 }

/-- Witness for `claim_C9_thm` on `stC9` with `now = 8726400` and
`days_old = 1` (cutoff `8726400 - 86400 = 8640000`): exactly the two old
terminal records are deleted and counted; the fresh completed record and the
ancient queued record stay. -/
theorem claim_C9_wit :
    (purge_completed_jobs stC9 8726400 1).2.jobs =
      stC9.jobs.filter (fun j => !purgeable (8726400 - 1 * 86400) j) ∧
    (purge_completed_jobs stC9 8726400 1).1 =
      (stC9.jobs.filter (purgeable (8726400 - 1 * 86400))).length :=
  claim_C9_thm stC9 8726400 1 (by decide)

end S3VI
